import Mathlib

/-!
# Verification of the clink TCP order/chat server core

A shallow embedding, in Lean 4, of the core logic of the clink repository:

* the per-line protocol dispatch of the server's session handler
  (function handleConn in the server source), including the ORDER
  validation/pricing path, the MENU reply, the /name and /quit commands
  and the plain-chat fallthrough;
* the username sanitizer (function sanitizeUsername);
* the hub's request loop (function Hub.Run) acting on join / leave /
  broadcast requests over a set of connections;
* the JSON subset semantics of encoding/json needed by the ORDER path
  (Unmarshal into the order struct, and the generic map re-parse used by
  the quantity fallback);
* a discrete interleaving model of the client transport coordinator
  (submitOrderCmd / listenForBroadcastsCmd / model.Update in the client
  source), whose two logical readers share one buffered reader.

Modelling conventions:

* Strings are Lean String / List Char; Go byte/rune distinctions do
  not matter for the properties below, all inputs being handled rune-wise.
* Go int is modelled as Int (64-bit overflow is not modelled; every
  quantity appearing below is tiny).
* Money: the Go code stores menu prices as float64 dollars and computes
  total := float64(quantity) * price.  All three menu prices (4.50,
  4.00, 3.00) are exact dyadic values, so for the quantities appearing in
  the claims the float64 arithmetic is exact and agrees with exact
  arithmetic on integer cents.  We therefore model prices as integer cents
  and the %.2f rendering as decimal rendering of cents (Go's %.2f
  rounding can only disagree on values that are not an exact multiple of
  a cent, which cannot arise from this menu).
* JSON numbers are kept in exact decimal form (mantissa, power of ten)
  instead of float64.  int(t) conversion of a float64 is modelled as
  truncation toward zero of the exact decimal value; the two can differ
  only for literals needing more than float64's 15-17 significant digits,
  which never occur in the claims.
-/

/-! ## Character utilities -/

/-- ASCII lower-casing of one character.  Go strings.EqualFold on the
ASCII command verbs used by the protocol ("MENU") is equivalent to
comparing the images under this map. -/
def lcChar (c : Char) : Char :=
  if 'A' ≤ c ∧ c ≤ 'Z' then Char.ofNat (c.toNat + 32) else c

/-- The white-space set of Go strings.TrimSpace (unicode.IsSpace)
restricted to Latin-1: space, \t, \n, \v, \f, \r, NEL (U+0085), NBSP
(U+00A0).  Other Unicode White_Space runes are not modelled; no claim
involves them. -/
def isGoSpace (c : Char) : Bool :=
  c = ' ' || c = '\t' || c = '\n' || c = '\r' ||
    c.toNat = 11 || c.toNat = 12 || c.toNat = 133 || c.toNat = 160

/-- Trim characters satisfying p from both ends of a character list
(the shape of Go strings.TrimFunc, used for TrimSpace and Trim). -/
def trimBoth (p : Char → Bool) (s : List Char) : List Char :=
  ((s.dropWhile p).reverse.dropWhile p).reverse

/-- Go strings.TrimSpace on a character list. -/
def trimSpace (s : List Char) : List Char := trimBoth isGoSpace s

/-- Go strings.TrimSpace on a String. -/
def trimSpaceStr (s : String) : String := String.mk (trimSpace s.toList)

/-- The opening curly bracket character (written via its code point to
keep it out of source-level literals). -/
def lbrace : Char := Char.ofNat 123

/-- The closing curly bracket character. -/
def rbrace : Char := Char.ofNat 125

/-! ## JSON values and the fragment of encoding/json used by handleConn

Jval is the parse tree of a JSON document.  Numbers are stored exactly:
jnum m e il denotes the decimal value m * 10^e; il records whether
the source literal was a plain integer literal (no fraction, no
exponent), which is exactly the condition under which Go's
strconv.ParseInt — and hence decoding into an int struct field —
succeeds on the literal. -/

inductive Jval where
  | jnull : Jval
  | jbool (b : Bool) : Jval
  | jnum (mant : Int) (exp10 : Int) (intLit : Bool) : Jval
  | jstr (s : String) : Jval
  | jarr (elems : List Jval) : Jval
  | jobj (fields : List (String × Jval)) : Jval

/-- The white-space set of the Go JSON scanner: space, \t, \n, \r. -/
def jsonWs (c : Char) : Bool :=
  c = ' ' || c = '\t' || c = '\n' || c = '\r'

/-- Hex digit value, none on a non-hex character. -/
def hexVal (c : Char) : Option ℕ :=
  if '0' ≤ c ∧ c ≤ '9' then some (c.toNat - 48)
  else if 'a' ≤ c ∧ c ≤ 'f' then some (c.toNat - 87)
  else if 'A' ≤ c ∧ c ≤ 'F' then some (c.toNat - 55)
  else none

/-- Body of a JSON string, after the opening quote.  Returns the decoded
characters and the input remaining after the closing quote.  Handles the
standard escapes and \uXXXX (surrogate-pair recombination is not
modelled; no claim uses it).  Raw control characters below 0x20 are
rejected, as in Go. -/
def parseStrChars : List Char → Option (List Char × List Char)
  | [] => none
  | c :: rest =>
    if c = '"' then some ([], rest)
    else if c = '\\' then
      match rest with
      | [] => none
      | e :: rest2 =>
        if e = 'u' then
          match rest2 with
          | h1 :: h2 :: h3 :: h4 :: rest3 =>
            match hexVal h1, hexVal h2, hexVal h3, hexVal h4 with
            | some a, some b, some c2, some d =>
              (parseStrChars rest3).map fun r =>
                (Char.ofNat (((a * 16 + b) * 16 + c2) * 16 + d) :: r.1, r.2)
            | _, _, _, _ => none
          | _ => none
        else
          let dec : Option Char :=
            if e = '"' then some '"'
            else if e = '\\' then some '\\'
            else if e = '/' then some '/'
            else if e = 'b' then some (Char.ofNat 8)
            else if e = 'f' then some (Char.ofNat 12)
            else if e = 'n' then some '\n'
            else if e = 'r' then some '\r'
            else if e = 't' then some '\t'
            else none
          match dec with
          | none => none
          | some d => (parseStrChars rest2).map fun r => (d :: r.1, r.2)
    else if c.toNat < 32 then none
    else (parseStrChars rest).map fun r => (c :: r.1, r.2)

/-- Decimal value of a digit list (most significant first). -/
def digitsVal (ds : List Char) : ℕ :=
  ds.foldl (fun acc c => acc * 10 + (c.toNat - 48)) 0

/-- JSON number grammar, Go flavour:
-? (0 | [1-9][0-9]*) (.[0-9]+)? ([eE][+-]?[0-9]+)?.
Returns the value in exact decimal form together with the
integer-literal flag. -/
def parseNum (cs : List Char) : Option (Jval × List Char) :=
  let sr : Bool × List Char :=
    match cs with
    | '-' :: t => (true, t)
    | _ => (false, cs)
  let neg := sr.1
  let cs1 := sr.2
  let intDigits := cs1.takeWhile Char.isDigit
  let afterInt := cs1.dropWhile Char.isDigit
  -- leading-zero rule: the integer part is "0" or starts with 1..9
  if intDigits = [] then none
  else if intDigits.length > 1 ∧ intDigits.headI = '0' then none
  else
    let fr : List Char × List Char × Bool :=
      match afterInt with
      | '.' :: t => (t.takeWhile Char.isDigit, t.dropWhile Char.isDigit, true)
      | _ => ([], afterInt, false)
    let fracDigits := fr.1
    let afterFrac := fr.2.1
    let hasFrac := fr.2.2
    if hasFrac ∧ fracDigits = [] then none
    else
      let er : Option Int × List Char × Bool :=
        match afterFrac with
        | 'e' :: t | 'E' :: t =>
          let st : Bool × List Char :=
            match t with
            | '+' :: u => (false, u)
            | '-' :: u => (true, u)
            | _ => (false, t)
          let ed := st.2.takeWhile Char.isDigit
          if ed = [] then (none, st.2, true)
          else
            (some (if st.1 then -(digitsVal ed : Int) else (digitsVal ed : Int)),
              st.2.dropWhile Char.isDigit, true)
        | _ => (some 0, afterFrac, false)
      match er.1 with
      | none => none
      | some ev =>
        let mant : ℕ := digitsVal (intDigits ++ fracDigits)
        let m : Int := if neg then -(mant : Int) else (mant : Int)
        some (Jval.jnum m (ev - fracDigits.length) (!hasFrac && !er.2.2), er.2.1)

/-- Parsing mode: a whole value, the items of a non-empty array (after
the opening bracket), or the members of a non-empty object (after the
opening bracket). -/
inductive PMode where
  | value : PMode
  | arrItems : PMode
  | objItems : PMode

/-- Fuelled recursive-descent parser for the JSON grammar accepted by
Go's encoding/json.  Array items are returned wrapped in Jval.jarr and
object members wrapped in Jval.jobj so that one return type serves all
three modes; recursion is structural on the fuel so that the function
reduces inside the kernel.  The fuel only needs to dominate the number
of recursive calls; the entry point below supplies twice the input
length, which is sufficient for every parse that succeeds at all. -/
def parseJ : ℕ → PMode → List Char → Option (Jval × List Char)
  | 0, _, _ => none
  | fuel + 1, PMode.value, cs0 =>
    match cs0.dropWhile jsonWs with
    | [] => none
    | c :: rest =>
      if c = 'n' then
        if rest.take 3 = ['u', 'l', 'l'] then some (Jval.jnull, rest.drop 3) else none
      else if c = 't' then
        if rest.take 3 = ['r', 'u', 'e'] then some (Jval.jbool true, rest.drop 3) else none
      else if c = 'f' then
        if rest.take 4 = ['a', 'l', 's', 'e'] then some (Jval.jbool false, rest.drop 4)
        else none
      else if c = '"' then
        (parseStrChars rest).map fun r => (Jval.jstr (String.mk r.1), r.2)
      else if c = '[' then
        match rest.dropWhile jsonWs with
        | ']' :: rest2 => some (Jval.jarr [], rest2)
        | _ =>
          match parseJ fuel PMode.arrItems rest with
          | some (Jval.jarr vs, rest2) => some (Jval.jarr vs, rest2)
          | _ => none
      else if c = lbrace then
        match rest.dropWhile jsonWs with
        | d :: rest2 =>
          if d = rbrace then some (Jval.jobj [], rest2)
          else
            match parseJ fuel PMode.objItems rest with
            | some (Jval.jobj fs, rest3) => some (Jval.jobj fs, rest3)
            | _ => none
        | [] => none
      else parseNum (c :: rest)
  | fuel + 1, PMode.arrItems, cs =>
    match parseJ fuel PMode.value cs with
    | some (v, rest) =>
      match rest.dropWhile jsonWs with
      | ',' :: rest2 =>
        match parseJ fuel PMode.arrItems rest2 with
        | some (Jval.jarr vs, rest3) => some (Jval.jarr (v :: vs), rest3)
        | _ => none
      | ']' :: rest2 => some (Jval.jarr [v], rest2)
      | _ => none
    | none => none
  | fuel + 1, PMode.objItems, cs =>
    match cs.dropWhile jsonWs with
    | c :: rest =>
      if c = '"' then
        match parseStrChars rest with
        | some (k, rest2) =>
          match rest2.dropWhile jsonWs with
          | ':' :: rest3 =>
            match parseJ fuel PMode.value rest3 with
            | some (v, rest4) =>
              match rest4.dropWhile jsonWs with
              | ',' :: rest5 =>
                match parseJ fuel PMode.objItems rest5 with
                | some (Jval.jobj fs, rest6) =>
                  some (Jval.jobj ((String.mk k, v) :: fs), rest6)
                | _ => none
              | d :: rest5 =>
                if d = rbrace then some (Jval.jobj [(String.mk k, v)], rest5) else none
              | [] => none
            | none => none
          | _ => none
        | none => none
      else none
    | [] => none

/-- Top-level parse of one JSON document, the way json.Unmarshal scans
its input: leading and trailing white space is allowed, anything else
after the value is an error. -/
def parseTop (cs : List Char) : Option Jval :=
  match parseJ (2 * cs.length + 8) PMode.value cs with
  | some (v, rest) => if rest.dropWhile jsonWs = [] then some v else none
  | none => none

/-! ## Unmarshalling into the order struct (encoding/json semantics)

Go's json.Unmarshal into

  type order struct \x7b Name string; ItemID string; Quantity int \x7d

with tags name / itemId / quantity: the document must be an object;
keys are matched case-insensitively against the tags; later duplicate
keys overwrite earlier ones; a JSON null leaves the field untouched;
a value of the wrong type (for Quantity: any non-number, or a number
literal with a fraction or exponent, which strconv.ParseInt rejects)
makes Unmarshal return an error — modelled as none.  Unknown keys are
ignored. -/

/-- The order struct the server expects for ORDER (source: type order). -/
structure order where
  Name : String
  ItemID : String
  Quantity : Int
deriving DecidableEq

/-- ASCII case-folded key, for Go's case-insensitive JSON field match.
The three field tags are pairwise distinct after folding, so matching
folded keys against folded tags is equivalent to Go's
exact-then-EqualFold lookup. -/
def keyFold (s : String) : String := String.mk (s.toList.map lcChar)

/-- One key/value assignment into the order struct; none models an
UnmarshalTypeError. -/
def assignField (o : order) (k : String) (v : Jval) : Option order :=
  if keyFold k = "name" then
    match v with
    | Jval.jstr s => some { o with Name := s }
    | Jval.jnull => some o
    | _ => none
  else if keyFold k = "itemid" then
    match v with
    | Jval.jstr s => some { o with ItemID := s }
    | Jval.jnull => some o
    | _ => none
  else if keyFold k = "quantity" then
    match v with
    | Jval.jnum m _ il => if il then some { o with Quantity := m } else none
    | Jval.jnull => some o
    | _ => none
  else some o

/-- Decoding a parsed JSON document into the order struct.  A non-object
document is a type error.  The fold threads the first error through,
matching Unmarshal's non-nil return. -/
def decodeOrder : Jval → Option order
  | Jval.jobj fs =>
    fs.foldl (fun acc kv => acc.bind fun o => assignField o kv.1 kv.2)
      (some { Name := "", ItemID := "", Quantity := 0 })
  | _ => none

/-- json.Unmarshal(raw, &ord) for the order struct: parse then decode.
none models err != nil in handleConn. -/
def unmarshalOrder (raw : List Char) : Option order :=
  (parseTop raw).bind decodeOrder

/-- Go strconv.Atoi on a character list: optional sign, then one or more
decimal digits and nothing else.  (int64 overflow is not modelled.) -/
def natDigits (ds : List Char) : Option ℕ :=
  if ds ≠ [] ∧ ds.all Char.isDigit then some (digitsVal ds) else none

/-- Go strconv.Atoi. -/
def atoiInt (cs : List Char) : Option Int :=
  match cs with
  | '+' :: ds => (natDigits ds).map fun n => (n : Int)
  | '-' :: ds => (natDigits ds).map fun n => -(n : Int)
  | ds => (natDigits ds).map fun n => (n : Int)

/-- 10^k as an integer. -/
def pow10 (k : ℕ) : Int := (10 : Int) ^ k

/-- Go int(t) for a float64 t holding the exact decimal value
m * 10^e: truncation toward zero. -/
def truncNum (m e : Int) : Int :=
  if 0 ≤ e then m * pow10 e.toNat else Int.tdiv m (pow10 (-e).toNat)

/-- The last value bound to key k when a JSON object is decoded into a
Go map (later duplicate keys overwrite earlier ones). -/
def lastVal (fs : List (String × Jval)) (k : String) : Option Jval :=
  ((fs.filter fun kv => kv.1 == k).getLast?).map fun kv => kv.2

/-- The quantity fallback of handleConn (source lines 173-188): when the
strictly-parsed quantity is <= 0, re-parse the raw payload into
map[string]any and accept a numeric string (via strconv.Atoi of its
trimmed text) or a float (truncated by int(t)); on any failure keep the
old quantity. -/
def fallbackQuantity (raw : List Char) (q : Int) : Int :=
  match parseTop raw with
  | some (Jval.jobj fs) =>
    match lastVal fs "quantity" with
    | some (Jval.jstr t) =>
      match atoiInt (trimSpace t.toList) with
      | some n => n
      | none => q
    | some (Jval.jnum m e _) => truncNum m e
    | _ => q
  | _ => q

/-! ## Username sanitizer (source: sanitizeUsername) -/

/-- The character classes admitted by sanitizeUsername: letters, digits,
underscore, hyphen, dot. -/
def allowedChar (c : Char) : Bool :=
  ('a' ≤ c && c ≤ 'z') || ('A' ≤ c && c ≤ 'Z') || ('0' ≤ c && c ≤ '9') ||
    c = '_' || c = '-' || c = '.'

/-- The accumulation loop of sanitizeUsername: allowed runes are kept,
a space becomes an underscore, anything else is skipped; after each
iteration the loop breaks once the output holds maxLen = 12 runes. -/
def sanitizeLoop : List Char → List Char → List Char
  | [], out => out
  | r :: rs, out =>
    let out' := if allowedChar r then out ++ [r]
      else if r = ' ' then out ++ ['_'] else out
    if 12 ≤ out'.length then out' else sanitizeLoop rs out'

/-- Characters trimmed from both ends of the sanitized name
(Go strings.Trim(s, "._-")). -/
def dotCutset (c : Char) : Bool := c = '.' || c = '_' || c = '-'

/-- sanitizeUsername on a character list. -/
def sanitizeChars (s : List Char) : List Char :=
  let t := trimSpace s
  if t = [] then [] else trimBoth dotCutset (sanitizeLoop t [])

/-- sanitizeUsername (source lines 88-113). -/
def sanitizeUsername (s : String) : String := String.mk (sanitizeChars s.toList)

/-! ## The static menu and order pricing (source: defaultMenu, handleConn) -/

/-- A menu entry.  The source stores Price as float64 dollars; the model
stores exact integer cents (see the header for why this is faithful for
this menu). -/
structure menuItem where
  ID : String
  Name : String
  priceCents : ℕ
deriving DecidableEq

/-- The static menu (source: defaultMenu; prices 4.50, 4.00, 3.00). -/
def defaultMenu : List menuItem :=
  [{ ID := "latte", Name := "Caffè Latte", priceCents := 450 },
   { ID := "cap", Name := "Cappuccino", priceCents := 400 },
   { ID := "esp", Name := "Espresso", priceCents := 300 }]

/-- The single-line JSON encoding of defaultMenu produced by
json.Marshal (float64 prices marshal as 4.5, 4, 3; the marshal error
branch in handleConn is unreachable for this constant value). -/
def menuJSON : String :=
  "[\x7b\"id\":\"latte\",\"name\":\"Caffè Latte\",\"price\":4.5\x7d,\x7b\"id\":\"cap\",\"name\":\"Cappuccino\",\"price\":4\x7d,\x7b\"id\":\"esp\",\"name\":\"Espresso\",\"price\":3\x7d]"

/-- Go fmt %.2f of a non-negative exact amount of cents: dollars, a dot,
then the cent remainder zero-padded to two digits. -/
def money2 (cents : ℕ) : String :=
  toString (cents / 100) ++ "." ++
    (if cents % 100 < 10 then "0" else "") ++ toString (cents % 100)

/-! ## The per-line protocol dispatch of handleConn -/

/-- A broadcast request sent to the hub (source: type broadcast).
Connections are abstracted as natural numbers; every broadcast emitted
from inside the read loop carries a nil exclusion. -/
structure broadcastReq where
  text : String
  exclude : Option ℕ
deriving DecidableEq

/-- Everything one loop iteration of handleConn produces: the lines
written directly back to the caller, the broadcast requests enqueued on
the hub, the (possibly renamed) username, and whether the loop exits
(/quit). -/
structure LineResult where
  replies : List String
  bcasts : List broadcastReq
  newUsername : String
  quit : Bool
deriving DecidableEq

/-- Outcome of validating one ORDER payload (the pure order engine part
of handleConn, source lines 162-205). -/
inductive OrderOutcome where
  | invalidJson : OrderOutcome
  | missingName : OrderOutcome
  | invalidQuantity : OrderOutcome
  | unknownItem : OrderOutcome
  | accepted (item : menuItem) (qty : Int) : OrderOutcome
deriving DecidableEq

/-- Validation of the raw ORDER payload: strict Unmarshal, name trim and
check, the quantity fallback, then the menu lookup (first item whose ID
matches). -/
def orderOutcome (raw : List Char) : OrderOutcome :=
  match unmarshalOrder raw with
  | none => OrderOutcome.invalidJson
  | some ord =>
    if trimSpaceStr ord.Name = "" then OrderOutcome.missingName
    else
      let q := if ord.Quantity ≤ 0 then fallbackQuantity raw ord.Quantity else ord.Quantity
      if q ≤ 0 then OrderOutcome.invalidQuantity
      else
        match defaultMenu.find? fun m => m.ID == ord.ItemID with
        | none => OrderOutcome.unknownItem
        | some item => OrderOutcome.accepted item q

/-- The text of the order broadcast (source line 208), written as the
"[order] " tag followed by the rest of the Sprintf output. -/
def orderText (username id : String) (qty : Int) (item : menuItem) : String :=
  "[order] " ++
    (username ++ " (" ++ id ++ ") ordered " ++ toString qty ++
      " × " ++ item.Name ++ " ($" ++ money2 (qty.toNat * item.priceCents) ++ ")")

/-- Rendering an order outcome as replies / broadcasts, as handleConn
does (error replies for rejections; on success one broadcast to all and
the OK ack to the caller). -/
def renderOutcome (username id : String) : OrderOutcome → LineResult
  | OrderOutcome.invalidJson =>
    { replies := ["[error] invalid order json"], bcasts := [], newUsername := username, quit := false }
  | OrderOutcome.missingName =>
    { replies := ["[error] missing name"], bcasts := [], newUsername := username, quit := false }
  | OrderOutcome.invalidQuantity =>
    { replies := ["[error] invalid quantity"], bcasts := [], newUsername := username, quit := false }
  | OrderOutcome.unknownItem =>
    { replies := ["[error] unknown item"], bcasts := [], newUsername := username, quit := false }
  | OrderOutcome.accepted item q =>
    { replies := ["OK|" ++ money2 (q.toNat * item.priceCents)],
      bcasts := [{ text := orderText username id q item, exclude := none }],
      newUsername := username, quit := false }

/-- The whole ORDER branch of handleConn on the already-extracted raw
payload. -/
def processOrder (username id : String) (raw : List Char) : LineResult :=
  renderOutcome username id (orderOutcome raw)

/-- The plain chat relay text (source line 239). -/
def chatText (username id : String) (line : List Char) : String :=
  username ++ " (" ++ id ++ "): " ++ String.mk line

/-- Go strings.CutPrefix: if the second list starts with the first, the
remainder after that start, else none.  strings.HasPrefix(s, p) is
(cutPre p s).isSome, and the slicing s[len(p):] of the ORDER branch is
the returned remainder. -/
def cutPre : List Char → List Char → Option (List Char)
  | [], s => some s
  | _ :: _, [] => none
  | p :: ps, c :: cs => if p = c then cutPre ps cs else none

/-- Dispatch of one non-empty, already-trimmed input line, in the order
the source tests it: EqualFold MENU, the case-sensitive ORDER line
start, /quit, the "/name " cut, then the plain chat fallthrough. -/
def dispatchLine (username id : String) (line : List Char) : LineResult :=
  if line.map lcChar = "menu".toList then
    { replies := [menuJSON], bcasts := [], newUsername := username, quit := false }
  else match cutPre "ORDER".toList line with
  | some raw => processOrder username id (trimSpace raw)
  | none =>
    if line = "/quit".toList then
    { replies := [], bcasts := [], newUsername := username, quit := true }
    else match cutPre "/name ".toList line with
  | some desired =>
    let newName := String.mk (sanitizeChars desired)
    if newName = "" then
      { replies := ["[error] invalid username"], bcasts := [], newUsername := username, quit := false }
    else if newName = username then
      { replies := ["[info] username unchanged: " ++ username], bcasts := [],
        newUsername := username, quit := false }
    else
      { replies := [],
        bcasts := [{ text := "[rename] " ++ username ++ " (" ++ id ++ ") -> " ++ newName,
                     exclude := none }],
        newUsername := newName, quit := false }
  | none =>
    { replies := [], bcasts := [{ text := chatText username id line, exclude := none }],
      newUsername := username, quit := false }

/-- One full iteration of the scanner loop: the read line is trimmed and
a line that is empty after trimming is skipped. -/
def handleLine (username id : String) (rawLine : String) : LineResult :=
  let line := trimSpace rawLine.toList
  if line = [] then
    { replies := [], bcasts := [], newUsername := username, quit := false }
  else dispatchLine username id line

/-! ## The hub (source: Hub, Hub.Run)

Hub.Run drains three channels under one goroutine (and additionally a
mutex, making the three cases atomic with respect to one another), so
its observable behaviour is a sequential fold over the stream of
requests.  Connections are abstracted as natural numbers; the Go
map[net.Conn]struct\x7b\x7d of members is a finite set; one fan-out pass
writes the text once per member key of the map, skipping a matching
exclusion.  The multiset of write targets abstracts the (unspecified)
map iteration order. -/

/-- Hub state: the member set plus the list of connections the hub has
closed (in order), recording the c.Close() calls of the leave case. -/
structure HubState where
  conns : Finset ℕ
  closed : List ℕ
deriving DecidableEq

/-- A request arriving on one of the hub's three channels. -/
inductive HubReq where
  | join (c : ℕ) : HubReq
  | leave (c : ℕ) : HubReq
  | msg (text : String) (excl : Option ℕ) : HubReq
deriving DecidableEq

/-- The write targets of one fan-out pass: every member except a
matching exclusion (source lines 68-77; the nil check and the equality
test collapse to excl ≠ some c on the Option model). -/
def recips (conns : Finset ℕ) (excl : Option ℕ) : Multiset ℕ :=
  (conns.filter fun c => excl ≠ some c).val

/-- One iteration of the select loop of Hub.Run.  Returns the new state
and the multiset of connections written to. -/
def hubStep (s : HubState) : HubReq → HubState × Multiset ℕ
  | HubReq.join c => ({ s with conns := insert c s.conns }, 0)
  | HubReq.leave c =>
    if c ∈ s.conns then
      ({ conns := s.conns.erase c, closed := s.closed ++ [c] }, 0)
    else (s, 0)
  | HubReq.msg _ excl => (s, recips s.conns excl)

/-- The hub state after serving a sequence of requests, starting from
the empty registry NewHub creates. -/
def runHub (reqs : List HubReq) : HubState :=
  reqs.foldl (fun s r => (hubStep s r).1) { conns := ∅, closed := [] }

/-- "c has been joined and not subsequently left": some join c occurs in
the sequence with no later leave c. -/
def JoinedNotLeft (reqs : List HubReq) (c : ℕ) : Prop :=
  ∃ l1 l2, reqs = l1 ++ HubReq.join c :: l2 ∧ HubReq.leave c ∉ l2

/-! ## The client transport coordinator (source: main.go client model)

The client reads one socket through a single shared bufio.Reader from
two logical activities: the background poller (listenForBroadcastsCmd:
one deadline-bounded ReadString per command, re-armed by model.Update on
every broadcastMsg — including when pauseBroadcast is set, in which case
Update merely sleeps 50ms first) and a foreground request
(submitOrderCmd / fetchMenuCmd: write the request, sleep 150ms, then
ReadString).  Neither the sleeps nor the read deadlines create a
happens-before edge between the two ReadString calls, and pauseBroadcast
is never consulted before a read, so every interleaving of the two
readers over the shared stream is a possible execution.  The model makes
the socket a FIFO of lines and an execution a sequence of atomic
events. -/

/-- Client coordinator state: the lines buffered on the socket (in
arrival order), the pauseBroadcast flag, the lines the poller has
consumed, and the line the foreground call consumed (if any). -/
structure ClientState where
  stream : List String
  pause : Bool
  polled : List String
  fgGot : Option String
deriving DecidableEq

/-- Atomic events of the coordinator: the foreground call sends its
request (Update sets pauseBroadcast before dispatching submitOrderCmd);
a server line arrives; the poller's ReadString consumes the next line
(or times out on an empty stream); the foreground ReadString consumes
the next line (or fails), after which Update clears pauseBroadcast. -/
inductive ClientEv where
  | fgRequest : ClientEv
  | serverLine (t : String) : ClientEv
  | pollRead : ClientEv
  | fgRead : ClientEv
deriving DecidableEq

/-- Effect of one event on the coordinator state. -/
def clientStep (s : ClientState) : ClientEv → ClientState
  | ClientEv.fgRequest => { s with pause := true }
  | ClientEv.serverLine t => { s with stream := s.stream ++ [t] }
  | ClientEv.pollRead =>
    match s.stream with
    | [] => s
    | t :: rest => { s with stream := rest, polled := s.polled ++ [t] }
  | ClientEv.fgRead =>
    match s.stream with
    | [] => { s with pause := false }
    | t :: rest => { s with stream := rest, fgGot := some t, pause := false }

/-- The coordinator state after an interleaving of events, from the
initial idle state. -/
def runClient (evs : List ClientEv) : ClientState :=
  evs.foldl clientStep { stream := [], pause := false, polled := [], fgGot := none }

/-! ## Helper lemmas -/

theorem orderToList : "ORDER".toList = ['O', 'R', 'D', 'E', 'R'] := rfl

theorem cutPre_cons {p : Char} {ps s : List Char} {r : List Char}
    (h : cutPre (p :: ps) s = some r) : ∃ t, s = p :: t ∧ cutPre ps t = some r := by
  cases s with
  | nil => simp [cutPre] at h
  | cons c cs =>
    by_cases hpc : p = c
    · subst hpc
      refine ⟨cs, rfl, ?_⟩
      simpa [cutPre] using h
    · simp [cutPre, hpc] at h

theorem map_lc_ne_menu {c : Char} (t : List Char) (hc : lcChar c ≠ 'm') :
    (c :: t).map lcChar ≠ "menu".toList := by
  intro h
  rw [show "menu".toList = 'm' :: 'e' :: 'n' :: 'u' :: [] from rfl, List.map_cons] at h
  exact hc (List.cons_eq_cons.mp h).1

theorem dispatch_menu_branch (u i : String) {line : List Char}
    (h : line.map lcChar = "menu".toList) :
    dispatchLine u i line =
      { replies := [menuJSON], bcasts := [], newUsername := u, quit := false } := by
  rw [dispatchLine, if_pos h]

theorem dispatch_order_branch (u i : String) {line raw : List Char}
    (h : cutPre "ORDER".toList line = some raw) :
    dispatchLine u i line = processOrder u i (trimSpace raw) := by
  obtain ⟨t, rfl, -⟩ := cutPre_cons (orderToList ▸ h)
  rw [dispatchLine, if_neg (map_lc_ne_menu t (by decide)), h]

theorem dispatch_lowercase_chat (u i : String) {line rest : List Char}
    (h : cutPre "order".toList line = some rest) :
    dispatchLine u i line =
      { replies := [], bcasts := [{ text := chatText u i line, exclude := none }],
        newUsername := u, quit := false } := by
  obtain ⟨t, rfl, -⟩ := cutPre_cons (show cutPre ('o' :: "rder".toList) _ = some rest from h)
  have h1 : cutPre "ORDER".toList ('o' :: t) = none := by
    rw [orderToList]
    simp [cutPre]
  have h2 : ('o' :: t) ≠ "/quit".toList := by
    intro hq
    rw [show "/quit".toList = '/' :: 'q' :: 'u' :: 'i' :: 't' :: [] from rfl] at hq
    exact absurd (List.cons_eq_cons.mp hq).1 (by decide)
  have h3 : cutPre "/name ".toList ('o' :: t) = none := by
    rw [show "/name ".toList = '/' :: 'n' :: 'a' :: 'm' :: 'e' :: ' ' :: [] from rfl]
    simp [cutPre]
  rw [dispatchLine, if_neg (map_lc_ne_menu t (by decide)), h1, if_neg h2, h3]

theorem processOrder_bcasts_tagged (u i : String) (raw : List Char) :
    ∀ b ∈ (processOrder u i raw).bcasts, ∃ r, b.text = "[order] " ++ r := by
  unfold processOrder
  cases orderOutcome raw with
  | accepted item q =>
    intro b hb
    simp only [renderOutcome, List.mem_singleton] at hb
    subst hb
    exact ⟨_, rfl⟩
  | invalidJson => simp [renderOutcome]
  | missingName => simp [renderOutcome]
  | invalidQuantity => simp [renderOutcome]
  | unknownItem => simp [renderOutcome]

theorem rejected_no_broadcast (u i : String) (raw : List Char)
    (h : ∀ item q, orderOutcome raw ≠ OrderOutcome.accepted item q) :
    (processOrder u i raw).bcasts = [] := by
  unfold processOrder
  cases hq : orderOutcome raw with
  | accepted item q => exact absurd hq (h item q)
  | invalidJson => rfl
  | missingName => rfl
  | invalidQuantity => rfl
  | unknownItem => rfl

theorem orderOutcome_unknown {raw : List Char} {ord : order}
    (hp : unmarshalOrder raw = some ord)
    (hn : trimSpaceStr ord.Name ≠ "")
    (hq : 0 < ord.Quantity)
    (hitem : ∀ m ∈ defaultMenu, m.ID ≠ ord.ItemID) :
    orderOutcome raw = OrderOutcome.unknownItem := by
  have hfind : defaultMenu.find? (fun m => m.ID == ord.ItemID) = none :=
    List.find?_eq_none.mpr fun m hm => by simp [hitem m hm]
  have hq2 : ¬ ord.Quantity ≤ 0 := not_le.mpr hq
  rw [orderOutcome, hp]
  simp only [if_neg hn, hq2, if_false, hfind]

theorem sanitizeLoop_allowed (rs : List Char) :
    ∀ out, (∀ c ∈ out, allowedChar c = true) →
      ∀ c ∈ sanitizeLoop rs out, allowedChar c = true := by
  induction rs with
  | nil =>
    intro out hout c hc
    rw [sanitizeLoop] at hc
    exact hout c hc
  | cons r rs ih =>
    intro out hout c hc
    rw [sanitizeLoop] at hc
    set out' := if allowedChar r then out ++ [r] else if r = ' ' then out ++ ['_'] else out
      with hdef
    have hout' : ∀ c ∈ out', allowedChar c = true := by
      intro x hx
      rw [hdef] at hx
      split_ifs at hx with h1 h2
      · rcases List.mem_append.mp hx with h | h
        · exact hout x h
        · rw [List.mem_singleton.mp h]; exact h1
      · rcases List.mem_append.mp hx with h | h
        · exact hout x h
        · rw [List.mem_singleton.mp h]; decide
      · exact hout x hx
    by_cases hlen : 12 ≤ out'.length
    · rw [if_pos hlen] at hc
      exact hout' c hc
    · rw [if_neg hlen] at hc
      exact ih out' hout' c hc

theorem sanitizeLoop_length (rs : List Char) :
    ∀ out : List Char, out.length ≤ 11 → (sanitizeLoop rs out).length ≤ 12 := by
  induction rs with
  | nil =>
    intro out hout
    rw [sanitizeLoop]
    omega
  | cons r rs ih =>
    intro out hout
    rw [sanitizeLoop]
    set out' := if allowedChar r then out ++ [r] else if r = ' ' then out ++ ['_'] else out
      with hdef
    have hlen' : out'.length ≤ out.length + 1 := by
      rw [hdef]
      split_ifs <;> simp
    by_cases hlen : 12 ≤ out'.length
    · rw [if_pos hlen]
      omega
    · rw [if_neg hlen]
      exact ih out' (by omega)

theorem trimBoth_sublist (p : Char → Bool) (l : List Char) :
    List.Sublist (trimBoth p l) l := by
  unfold trimBoth
  have h1 : List.Sublist (l.dropWhile p) l := List.dropWhile_sublist p
  have h2 : List.Sublist ((l.dropWhile p).reverse.dropWhile p) (l.dropWhile p).reverse :=
    List.dropWhile_sublist p
  have h3 : List.Sublist (((l.dropWhile p).reverse.dropWhile p).reverse) (l.dropWhile p) := by
    have := h2.reverse
    rwa [List.reverse_reverse] at this
  exact h3.trans h1

theorem runHub_concat (reqs : List HubReq) (r : HubReq) :
    runHub (reqs ++ [r]) = (hubStep (runHub reqs) r).1 := by
  simp [runHub, List.foldl_append]

theorem jnl_nil (c : ℕ) : ¬ JoinedNotLeft [] c := by
  rintro ⟨l1, l2, h, -⟩
  cases l1 <;> simp_all

theorem jnl_concat (reqs : List HubReq) (r : HubReq) (c : ℕ) :
    JoinedNotLeft (reqs ++ [r]) c ↔
      r = HubReq.join c ∨ (JoinedNotLeft reqs c ∧ r ≠ HubReq.leave c) := by
  constructor
  · rintro ⟨l1, l2, heq, hnm⟩
    rcases List.eq_nil_or_concat l2 with rfl | ⟨l2', b, rfl⟩
    · left
      have h2 := List.append_inj' heq (by simp)
      have := h2.2
      simpa using this
    · simp only [List.concat_eq_append] at heq hnm
      right
      have heq2 : reqs ++ [r] = (l1 ++ HubReq.join c :: l2') ++ [b] := by
        simpa [List.append_assoc] using heq
      have h2 := List.append_inj' heq2 (by simp)
      obtain ⟨hL, hR⟩ := h2
      have hrb : r = b := by simpa using hR
      have hnm2 : HubReq.leave c ∉ l2' ∧ HubReq.leave c ≠ b := by
        constructor
        · intro hm; exact hnm (List.mem_append.mpr (Or.inl hm))
        · intro hb; exact hnm (List.mem_append.mpr (Or.inr (by simp [hb])))
      refine ⟨⟨l1, l2', hL, hnm2.1⟩, ?_⟩
      rw [hrb]
      exact fun hh => hnm2.2 hh.symm
  · rintro (rfl | ⟨⟨l1, l2, rfl, hnm⟩, hr⟩)
    · exact ⟨reqs, [], by simp, by simp⟩
    · refine ⟨l1, l2 ++ [r], by simp, ?_⟩
      intro hm
      rcases List.mem_append.mp hm with h | h
      · exact hnm h
      · exact hr (List.mem_singleton.mp h).symm

theorem hub_mem_iff (reqs : List HubReq) (c : ℕ) :
    c ∈ (runHub reqs).conns ↔ JoinedNotLeft reqs c := by
  induction reqs using List.reverseRecOn with
  | nil =>
    simp only [runHub, List.foldl_nil]
    simpa using jnl_nil c
  | append_singleton reqs r ih =>
    rw [runHub_concat, jnl_concat]
    cases r with
    | join d =>
      simp only [hubStep, Finset.mem_insert, HubReq.join.injEq]
      constructor
      · rintro (rfl | h)
        · exact Or.inl rfl
        · exact Or.inr ⟨ih.mp h, by simp⟩
      · rintro (rfl | ⟨h, -⟩)
        · exact Or.inl rfl
        · exact Or.inr (ih.mpr h)
    | leave d =>
      have hc : ((hubStep (runHub reqs) (HubReq.leave d)).1).conns =
          (runHub reqs).conns.erase d := by
        by_cases h : d ∈ (runHub reqs).conns
        · simp [hubStep, h]
        · simp [hubStep, h, Finset.erase_eq_self.mpr h]
      rw [hc, Finset.mem_erase]
      constructor
      · rintro ⟨hne, hmem⟩
        exact Or.inr ⟨ih.mp hmem, by simp [HubReq.leave.injEq]; exact fun hh => hne hh.symm⟩
      · rintro (h | ⟨h, hne⟩)
        · exact absurd h (by simp)
        · refine ⟨?_, ih.mpr h⟩
          intro hcd
          exact hne (by rw [hcd])
    | msg text excl =>
      simp only [hubStep]
      constructor
      · intro h
        exact Or.inr ⟨ih.mp h, by simp⟩
      · rintro (h | ⟨h, -⟩)
        · exact absurd h (by simp)
        · exact ih.mpr h

/-! ## Claim theorems -/

/-- C1: the claim says an ORDER payload carrying the quantity as a
numeric string ("2") or as a float (2.0) is recovered by the fallback
re-parse and accepted.  On the code this is false: the strict
json.Unmarshal into the order struct already fails with a type error on
such a payload, so handleConn replies "[error] invalid order json" and
never reaches the fallback — even though the fallback logic itself
(fallbackQuantity) would have extracted 2, as the last two conjuncts
show.  This contradicts the code's own fallback comment, so the claim is
recorded as a code bug; this theorem evaluates the model at the failing
inputs. -/
theorem order_quantity_string_or_float_rejected :
    dispatchLine "Alice" "ab12cd"
      (String.toList "ORDER \x7b\"name\":\"Alice\",\"itemId\":\"latte\",\"quantity\":\"2\"\x7d") =
      { replies := ["[error] invalid order json"], bcasts := [], newUsername := "Alice",
        quit := false } ∧
    dispatchLine "Alice" "ab12cd"
      (String.toList "ORDER \x7b\"name\":\"Alice\",\"itemId\":\"latte\",\"quantity\":2.0\x7d") =
      { replies := ["[error] invalid order json"], bcasts := [], newUsername := "Alice",
        quit := false } ∧
    fallbackQuantity
      (String.toList "\x7b\"name\":\"Alice\",\"itemId\":\"latte\",\"quantity\":\"2\"\x7d") 0 = 2 ∧
    fallbackQuantity
      (String.toList "\x7b\"name\":\"Alice\",\"itemId\":\"latte\",\"quantity\":2.0\x7d") 0 = 2 :=
  ⟨by decide, by decide, by decide, by decide⟩

/-- C2 (counterexample): a lowercase "order \x7b...\x7d" line is not
processed as an order submission; it falls through to the plain chat
broadcast, refuting case-insensitive dispatch of the ORDER verb. -/
theorem order_lowercase_chat_cex :
    dispatchLine "Alice" "ab12cd"
      (String.toList "order \x7b\"name\":\"Alice\",\"itemId\":\"latte\",\"quantity\":2\x7d") =
      { replies := [],
        bcasts := [{ text := "Alice (ab12cd): order \x7b\"name\":\"Alice\",\"itemId\":\"latte\",\"quantity\":2\x7d", exclude := none }],
        newUsername := "Alice", quit := false } := by
  decide

/-- C2 (amended): dispatch of the MENU verb is case-insensitive (any
line whose case-folded text is "menu" gets the menu JSON and no
broadcast), but dispatch of ORDER is case-sensitive: exactly the lines
starting with the uppercase characters "ORDER" take the order path,
while a line starting with lowercase "order" is broadcast as plain
chat. -/
theorem dispatch_case_sensitivity :
    (∀ (u i : String) (line : List Char), line.map lcChar = "menu".toList →
      dispatchLine u i line =
        { replies := [menuJSON], bcasts := [], newUsername := u, quit := false }) ∧
    (∀ (u i : String) (line raw : List Char), cutPre "ORDER".toList line = some raw →
      dispatchLine u i line = processOrder u i (trimSpace raw)) ∧
    (∀ (u i : String) (line rest : List Char), cutPre "order".toList line = some rest →
      dispatchLine u i line =
        { replies := [], bcasts := [{ text := chatText u i line, exclude := none }],
          newUsername := u, quit := false }) :=
  ⟨fun u i _ h => dispatch_menu_branch u i h,
   fun u i _ _ h => dispatch_order_branch u i h,
   fun u i _ _ h => dispatch_lowercase_chat u i h⟩

/-- C2 (witness): the three parts of dispatch_case_sensitivity at the
concrete lines "mEnU", "ORDER x" and "order hi". -/
theorem dispatch_case_sensitivity_witness :
    dispatchLine "u" "i" (String.toList "mEnU") =
      { replies := [menuJSON], bcasts := [], newUsername := "u", quit := false } ∧
    dispatchLine "u" "i" (String.toList "ORDER x") =
      processOrder "u" "i" (trimSpace (String.toList " x")) ∧
    dispatchLine "u" "i" (String.toList "order hi") =
      { replies := [],
        bcasts := [{ text := chatText "u" "i" (String.toList "order hi"), exclude := none }],
        newUsername := "u", quit := false } :=
  ⟨dispatch_case_sensitivity.1 "u" "i" _ (by decide),
   dispatch_case_sensitivity.2.1 "u" "i" _ (String.toList " x") (by decide),
   dispatch_case_sensitivity.2.2 "u" "i" _ (String.toList " hi") (by decide)⟩

/-- C3 (counterexample): joining connection 0 twice and then processing
a broadcast delivers the text to 0 exactly once, not twice — the member
map makes the second join a no-op, refuting the duplicate fan-out the
claim asserts. -/
theorem join_twice_single_fanout_cex :
    (hubStep (runHub [HubReq.join 0, HubReq.join 0]) (HubReq.msg "hello" none)).2 =
      ({0} : Multiset ℕ) ∧
    Multiset.count 0
      (hubStep (runHub [HubReq.join 0, HubReq.join 0]) (HubReq.msg "hello" none)).2 = 1 ∧
    ¬ Multiset.count 0
      (hubStep (runHub [HubReq.join 0, HubReq.join 0]) (HubReq.msg "hello" none)).2 = 2 :=
  ⟨by decide, by decide, by decide⟩

/-- C3 (amended): Join is idempotent on the hub: registering the same
connection a second time leaves the hub state unchanged, and a
subsequent broadcast delivers to that connection exactly once. -/
theorem hub_join_idempotent (s : HubState) (c : ℕ) (text : String) :
    (hubStep (hubStep s (HubReq.join c)).1 (HubReq.join c)).1 = (hubStep s (HubReq.join c)).1 ∧
    Multiset.count c
      (hubStep (hubStep (hubStep s (HubReq.join c)).1 (HubReq.join c)).1
        (HubReq.msg text none)).2 = 1 := by
  constructor
  · simp [hubStep, Finset.insert_idem]
  · have hmem : c ∈ (insert c (insert c s.conns)).filter fun x => (none : Option ℕ) ≠ some x :=
      Finset.mem_filter.mpr ⟨Finset.mem_insert_self c _, by simp⟩
    exact Multiset.count_eq_one_of_mem (Finset.nodup _) (Finset.mem_val.mpr hmem)

/-- C4: a broadcast with exclude = c writes to no connection equal to c,
and writes exactly once to every other currently joined connection. -/
theorem hub_broadcast_exclude (s : HubState) (c d : ℕ) (text : String)
    (hd : d ∈ s.conns) (hdc : d ≠ c) :
    Multiset.count c (hubStep s (HubReq.msg text (some c))).2 = 0 ∧
    Multiset.count d (hubStep s (HubReq.msg text (some c))).2 = 1 := by
  constructor
  · apply Multiset.count_eq_zero.mpr
    intro hc
    simp only [hubStep, recips, Finset.mem_val, Finset.mem_filter] at hc
    exact hc.2 rfl
  · have hmem : d ∈ s.conns.filter fun x => (some c : Option ℕ) ≠ some x :=
      Finset.mem_filter.mpr ⟨hd, by simp [Ne.symm hdc]⟩
    exact Multiset.count_eq_one_of_mem (Finset.nodup _) (Finset.mem_val.mpr hmem)

/-- C4 (witness): hub_broadcast_exclude on the registry \x7b0, 1\x7d with
exclusion 0. -/
theorem hub_broadcast_exclude_witness :
    Multiset.count 0
      (hubStep { conns := {0, 1}, closed := [] } (HubReq.msg "x" (some 0))).2 = 0 ∧
    Multiset.count 1
      (hubStep { conns := {0, 1}, closed := [] } (HubReq.msg "x" (some 0))).2 = 1 :=
  hub_broadcast_exclude { conns := {0, 1}, closed := [] } 0 1 "x" (by decide) (by decide)

/-- C5: the accepted order \x7bname: Alice, itemId: latte, quantity: 2\x7d
prices to 2 x 4.50 = 9.00: the reply is exactly "OK|9.00" and the
broadcast text ends with "2 × Caffè Latte ($9.00)". -/
theorem order_pricing_latte :
    dispatchLine "Alice" "ab12cd"
      (String.toList "ORDER \x7b\"name\":\"Alice\",\"itemId\":\"latte\",\"quantity\":2\x7d") =
      { replies := ["OK|9.00"],
        bcasts := [{ text := "[order] Alice (ab12cd) ordered " ++ "2 × Caffè Latte ($9.00)",
                     exclude := none }],
        newUsername := "Alice", quit := false } ∧
    money2 (2 * 450) = "9.00" :=
  ⟨by decide, by decide⟩

/-- C6: an ORDER payload that parses, has a non-empty trimmed name and a
positive quantity but an itemId outside the static menu is answered with
the single reply "[error] unknown item", no broadcast, and the loop
continues; and, in general, every rejected order emits no broadcast. -/
theorem order_unknown_item_no_broadcast (u i : String) (raw : List Char) (ord : order)
    (hp : unmarshalOrder raw = some ord)
    (hn : trimSpaceStr ord.Name ≠ "")
    (hq : 0 < ord.Quantity)
    (hitem : ∀ m ∈ defaultMenu, m.ID ≠ ord.ItemID) :
    processOrder u i raw =
      { replies := ["[error] unknown item"], bcasts := [], newUsername := u, quit := false } ∧
    (∀ (raw2 : List Char) (u2 i2 : String),
      (∀ item q, orderOutcome raw2 ≠ OrderOutcome.accepted item q) →
      (processOrder u2 i2 raw2).bcasts = []) := by
  constructor
  · unfold processOrder
    rw [orderOutcome_unknown hp hn hq hitem]
    rfl
  · intro raw2 u2 i2 h2
    exact rejected_no_broadcast u2 i2 raw2 h2

/-- C6 (witness): order_unknown_item_no_broadcast at the concrete
payload \x7bname: Bob, itemId: tea, quantity: 1\x7d. -/
theorem order_unknown_item_no_broadcast_witness :
    processOrder "u" "i"
      (String.toList "\x7b\"name\":\"Bob\",\"itemId\":\"tea\",\"quantity\":1\x7d") =
      { replies := ["[error] unknown item"], bcasts := [], newUsername := "u", quit := false } :=
  (order_unknown_item_no_broadcast "u" "i" _
    { Name := "Bob", ItemID := "tea", Quantity := 1 }
    (by decide) (by decide) (by decide) (by decide)).1

/-- C7: sanitizeUsername keeps only letters, digits, underscore, hyphen
and dot (spaces having been mapped to underscores), caps the result at
12 characters, and on the three concrete inputs of the claim produces
"Jane_Doe", "" and twelve characters a. -/
theorem sanitizeUsername_spec :
    (∀ s : String, ∀ c ∈ (sanitizeUsername s).toList, allowedChar c = true) ∧
    (∀ s : String, (sanitizeUsername s).length ≤ 12) ∧
    sanitizeUsername "Jane Doe!!" = "Jane_Doe" ∧
    sanitizeUsername "...---" = "" ∧
    sanitizeUsername (String.mk (List.replicate 40 'a')) = String.mk (List.replicate 12 'a') := by
  refine ⟨?_, ?_, by decide, by decide, by decide⟩
  · intro s c hc
    have hc2 : c ∈ sanitizeChars s.toList := hc
    by_cases ht : trimSpace s.toList = []
    · rw [sanitizeChars, if_pos ht] at hc2
      simp at hc2
    · rw [sanitizeChars, if_neg ht] at hc2
      have hmem := (trimBoth_sublist dotCutset _).subset hc2
      exact sanitizeLoop_allowed _ [] (by simp) c hmem
  · intro s
    have hlen : (sanitizeUsername s).length = (sanitizeChars s.toList).length := rfl
    rw [hlen]
    by_cases ht : trimSpace s.toList = []
    · rw [sanitizeChars, if_pos ht]
      decide
    · rw [sanitizeChars, if_neg ht]
      have h1 := (trimBoth_sublist dotCutset (sanitizeLoop (trimSpace s.toList) [])).length_le
      have h2 := sanitizeLoop_length (trimSpace s.toList) [] (by simp)
      omega

/-- C7 (witness): sanitizeUsername_spec instantiated at "Jane Doe!!" and
the character J of its output. -/
theorem sanitizeUsername_spec_witness :
    allowedChar 'J' = true ∧ (sanitizeUsername "Jane Doe!!").length ≤ 12 :=
  ⟨sanitizeUsername_spec.1 "Jane Doe!!" 'J' (by decide),
   sanitizeUsername_spec.2.1 "Jane Doe!!"⟩

/-- C8: after any sequence of hub requests the member set is exactly the
set of connections joined and not subsequently left; a leave of an
absent connection is a complete no-op (no member change, no close),
while a leave of a present connection removes it and closes it. -/
theorem hub_registry_spec :
    (∀ (reqs : List HubReq) (c : ℕ), c ∈ (runHub reqs).conns ↔ JoinedNotLeft reqs c) ∧
    (∀ (s : HubState) (c : ℕ), c ∉ s.conns → hubStep s (HubReq.leave c) = (s, 0)) ∧
    (∀ (s : HubState) (c : ℕ), c ∈ s.conns →
      (hubStep s (HubReq.leave c)).1.conns = s.conns.erase c ∧
      (hubStep s (HubReq.leave c)).1.closed = s.closed ++ [c] ∧
      (hubStep s (HubReq.leave c)).2 = 0) := by
  refine ⟨hub_mem_iff, ?_, ?_⟩
  · intro s c h
    simp [hubStep, h]
  · intro s c h
    refine ⟨?_, ?_, ?_⟩ <;> simp [hubStep, h]

/-- C8 (witness): hub_registry_spec at concrete states: a leave on the
empty registry is a no-op, a leave on \x7b0\x7d erases 0, and 0 is a
member after the sequence [join 0]. -/
theorem hub_registry_spec_witness :
    hubStep { conns := ∅, closed := [] } (HubReq.leave 0) =
      ({ conns := ∅, closed := [] }, 0) ∧
    (hubStep { conns := {0}, closed := [] } (HubReq.leave 0)).1.conns =
      ({0} : Finset ℕ).erase 0 ∧
    0 ∈ (runHub [HubReq.join 0]).conns :=
  ⟨hub_registry_spec.2.1 _ 0 (by decide),
   (hub_registry_spec.2.2 _ 0 (by decide)).1,
   (hub_registry_spec.1 [HubReq.join 0] 0).mpr ⟨[], [], rfl, by simp⟩⟩

/-- C9: the claim says no interleaving lets the background poller
consume the foreground response (or vice versa).  On the code this is
false: pauseBroadcast never gates the poller's read — Update re-arms
listenForBroadcastsCmd even while paused — so in the interleaving where
the server's "OK|9.00" reply arrives during submitOrderCmd's pre-read
sleep and the poller's pending read fires first, the poller consumes the
response and the foreground read gets nothing.  The second and third
conjuncts show the poller's read succeeding while the pause flag is
set.  The spec itself (§5, §9) flags the sleep-based handoff as a latent
race, so the claim is recorded as a code bug; this theorem evaluates the
model at the failing interleaving. -/
theorem client_poller_consumes_fg_response :
    runClient [ClientEv.fgRequest, ClientEv.serverLine "OK|9.00", ClientEv.pollRead,
        ClientEv.fgRead] =
      { stream := [], pause := false, polled := ["OK|9.00"], fgGot := none } ∧
    (runClient [ClientEv.fgRequest, ClientEv.serverLine "OK|9.00"]).pause = true ∧
    (clientStep (runClient [ClientEv.fgRequest, ClientEv.serverLine "OK|9.00"])
        ClientEv.pollRead).polled = ["OK|9.00"] :=
  ⟨by decide, by decide, by decide⟩

/-- C10: every line starting with the exact uppercase characters "ORDER"
is consumed by the order path (its broadcasts, if any, carry the
"[order] " tag, never the plain chat shape), and when the rest of the
line is not valid order JSON the caller gets the single reply
"[error] invalid order json" with no broadcast. -/
theorem order_verb_consumed (u i : String) (line raw : List Char)
    (h : cutPre "ORDER".toList line = some raw) :
    dispatchLine u i line = processOrder u i (trimSpace raw) ∧
    (∀ b ∈ (dispatchLine u i line).bcasts, ∃ r2, b.text = "[order] " ++ r2) ∧
    (unmarshalOrder (trimSpace raw) = none →
      dispatchLine u i line =
        { replies := ["[error] invalid order json"], bcasts := [], newUsername := u,
          quit := false }) := by
  have hd := dispatch_order_branch u i h
  refine ⟨hd, ?_, ?_⟩
  · rw [hd]
    exact processOrder_bcasts_tagged u i _
  · intro hn
    rw [hd]
    unfold processOrder orderOutcome
    rw [hn]
    rfl

/-- C10 (witness): order_verb_consumed at the chat-looking line
"ORDERS UP", which is swallowed with the invalid-json error instead of
being broadcast. -/
theorem order_verb_consumed_witness :
    dispatchLine "u" "i" (String.toList "ORDERS UP") =
      { replies := ["[error] invalid order json"], bcasts := [], newUsername := "u",
        quit := false } :=
  (order_verb_consumed "u" "i" _ (String.toList "S UP") (by decide)).2.2 (by decide)
